import Mathlib

/-!
Shallow embedding of v8's JSInliningHeuristic
(src/compiler/js-inlining-heuristic.cc) together with proofs of the
documented properties of the inlining decision engine.

The embedding models the heuristic's data and control flow directly from
the source:
* machine integers (node ids, bytecode sizes, the cumulative budget
  counter) are natural numbers — all of these are non-negative counters in
  the source and no overflow is relevant to the properties below;
* the call-site frequency (a non-NaN float wrapped by CallFrequency) is
  modelled as a rational number, keeping its linear order;
* the double flag FLAG_reserve_inline_budget_scale_factor is modelled as
  an exact non-negative rational reserveScaleNum / reserveScaleDen; the
  C++ static_cast<int> truncation of a non-negative value is floor, i.e.
  natural division;
* the external inliner (JSInliner::ReduceJSCall) and node liveness
  (Node::IsDead) are environment facts for the heuristic, modelled as
  oracles supplied per operation;
* kMaxCallPolymorphism is declared in js-inlining-heuristic.h (not part of
  the sources here); the bound is kept as a configuration parameter that
  is passed where the source passes the constant.
-/

namespace JSIH

/-- Fields of SharedFunctionInfo consulted by the heuristic:
HasBuiltinFunctionId, IsUserJavaScript, HasBytecodeArray,
bytecode_array()->length(), and the force_inline flag. -/
structure SharedInfo where
  hasBuiltinId : Bool
  isUserJS : Bool
  hasBytecode : Bool
  bytecodeLength : Nat
  forceInline : Bool
deriving DecidableEq, Repr, Inhabited

/-- The FLAG_* configuration values consulted by the heuristic. -/
structure Config where
  maxInlinedBytecodeSize : Nat            -- FLAG_max_inlined_bytecode_size
  maxInlinedBytecodeSizeSmall : Nat       -- FLAG_max_inlined_bytecode_size_small
  maxInlinedBytecodeSizeAbsolute : Nat    -- FLAG_max_inlined_bytecode_size_absolute
  maxInlinedBytecodeSizeCumulative : Nat  -- FLAG_max_inlined_bytecode_size_cumulative
  reserveScaleNum : Nat                   -- FLAG_reserve_inline_budget_scale_factor,
  reserveScaleDen : Nat                   --   as an exact rational num/den
  minInliningFrequency : ℚ                -- FLAG_min_inlining_frequency
  maxInliningLevels : Nat                 -- FLAG_max_inlining_levels
  polymorphicInlining : Bool              -- FLAG_polymorphic_inlining
  maxCallPolymorphism : Nat               -- kMaxCallPolymorphism (header constant)
deriving Repr

/-- CanInlineFunction, js-inlining-heuristic.cc lines 51-69. -/
def CanInlineFunction (cfg : Config) (sh : SharedInfo) : Bool :=
  if sh.hasBuiltinId then false
  else if !sh.isUserJS then false
  else if !sh.hasBytecode then false
  else if sh.bytecodeLength > cfg.maxInlinedBytecodeSize then false
  else true

/-- IsSmallInlineFunction, lines 71-79: small only if compiled and the
bytecode length is at most FLAG_max_inlined_bytecode_size_small. -/
def IsSmallInlineFunction (cfg : Config) (sh : SharedInfo) : Bool :=
  sh.hasBytecode && sh.bytecodeLength ≤ cfg.maxInlinedBytecodeSizeSmall

/-- CallFrequency: either unknown (NaN in the source) or a known value. -/
inductive Frequency where
  | unknown
  | known (value : ℚ)
deriving DecidableEq, Repr

/-- A resolved JSFunction: for the heuristic only its SharedFunctionInfo
matters. -/
structure JSFunc where
  shared : SharedInfo
deriving DecidableEq, Repr

/-- The shapes of the callee operand that CollectFunctions distinguishes:
a single JSFunction heap constant, a value phi (each value input either a
JSFunction constant or not), a JSCreateClosure carrying a shared info, or
anything else. -/
inductive CalleeNode where
  | constFn (f : JSFunc)
  | phi (valueInputs : List (Option JSFunc))
  | createClosure (sharedOfClosure : SharedInfo)
  | other
deriving DecidableEq, Repr

/-- CollectFunctions, lines 24-49.  Returns the collected function list
(functions[0..n), a none entry standing for the null handle of the
JSCreateClosure case) and the shared info set in that case.  A phi with
more value inputs than functions_size, or any non-constant phi input,
yields zero functions. -/
def CollectFunctions (callee : CalleeNode) (functionsSize : Nat) :
    List (Option JSFunc) × Option SharedInfo :=
  match callee with
  | .constFn f => ([some f], none)
  | .phi valueInputs =>
      if valueInputs.length > functionsSize then ([], none)
      else if valueInputs.all (fun x => x.isSome) then (valueInputs, none)
      else ([], none)
  | .createClosure sh => ([none], some sh)
  | .other => ([], none)

/-- Candidate, as populated by Reduce: the call node id, the per-target
shared infos (after the null-handle resolution of lines 110-113), the
parallel can_inline_function flags, the aggregate size of the inlinable
targets, and the call-site frequency. -/
structure Candidate where
  nodeId : Nat
  targets : List SharedInfo
  canInlineFlags : List Bool
  totalSize : Nat
  frequency : Frequency
deriving DecidableEq, Repr

/-- CandidateCompare::operator(), lines 590-609. -/
def CandidateCompare (left right : Candidate) : Bool :=
  match right.frequency with
  | .unknown =>
      match left.frequency with
      | .unknown => decide (left.nodeId > right.nodeId)
      | .known _ => true
  | .known rv =>
      match left.frequency with
      | .unknown => false
      | .known lv =>
          if lv > rv then true
          else if lv < rv then false
          else decide (left.nodeId > right.nodeId)

/-- Resolution of the shared info of one collected target, lines 110-113
(and identically 507-510): a null function handle means the
JSCreateClosure case, whose shared info was stored on the candidate. -/
def targetShared (sharedOpt : Option SharedInfo) (f : Option JSFunc) : SharedInfo :=
  match f with
  | some fn => fn.shared
  | none => sharedOpt.getD default

/-- The flags accumulated by the per-target loop of lines 107-125. -/
structure TargetAnalysis where
  canInlineFlags : List Bool
  canInline : Bool
  forceAll : Bool
  smallAll : Bool
  totalSize : Nat
deriving Repr

/-- Per-target loop of Reduce, lines 107-125: can_inline is the
disjunction of the per-target CanInlineFunction flags, force_inline and
small_inline the conjunctions of force_inline resp. IsSmallInlineFunction
over all targets, and total_size the sum of the bytecode lengths of the
inlinable targets. -/
def analyzeTargets (cfg : Config) : List SharedInfo → TargetAnalysis
  | [] => ⟨[], false, true, true, 0⟩
  | sh :: rest =>
      let r := analyzeTargets cfg rest
      let ci := CanInlineFunction cfg sh
      ⟨ci :: r.canInlineFlags,
       ci || r.canInline,
       sh.forceInline && r.forceAll,
       IsSmallInlineFunction cfg sh && r.smallAll,
       (if ci then sh.bytecodeLength else 0) + r.totalSize⟩

/-- Environment oracles: the outcome of the external inliner
(JSInliner::ReduceJSCall, per call node id and per dispatch branch) and
node liveness (Node::IsDead, per node id) at the time an operation runs. -/
structure Oracles where
  inlChanged : Nat → Nat → Bool
  isDead : Nat → Bool

/-- The three operating modes of the heuristic. -/
inductive Mode where
  | restricted
  | stress
  | general
deriving DecidableEq, Repr

/-- The view of a call node taken by Reduce: its id, whether its opcode is
an inlinee opcode (JSCall or JSConstruct), its callee operand shape, the
chain of enclosing frame states (true marks a frame whose function info is
of JS-function type, cf. lines 130-145), and the call-site frequency
carried by its operator parameters (lines 147-154). -/
structure CallNode where
  id : Nat
  isInlinee : Bool
  callee : CalleeNode
  frameChainJS : List Bool
  frequency : Frequency
deriving Repr

/-- The mutable state of the heuristic: the seen_ set, the candidates_
ordered set (kept as a list sorted by CandidateCompare), and the
cumulative_count_ budget counter. -/
structure HState where
  seen : List Nat
  backlog : List Candidate
  cumulative : Nat
deriving DecidableEq, Repr

/-- Outcome of one dispatch branch in the polymorphic inlining loop of
lines 571-585: substituted means ReduceJSCall changed the graph, so the
specialized call node was killed and its size charged to the budget;
residual means the specialized call stays live in the graph. -/
inductive BranchOutcome where
  | substituted
  | residual
deriving DecidableEq, Repr

/-- The polymorphic inlining loop of lines 571-585: each branch i carries
its target's shared info and can_inline_function[i]; the branch is handed
to the external inliner iff force_inline is set or the flag holds and the
cumulative counter (re-read at this iteration) is strictly below
FLAG_max_inlined_bytecode_size_cumulative; a changed reduction kills the
node and adds the target's bytecode length to the counter. -/
def inlineBranches (cfg : Config) (orc : Oracles) (nid : Nat) (force : Bool) :
    Nat → Nat → List (SharedInfo × Bool) → Nat × List BranchOutcome
  | _, cum, [] => (cum, [])
  | i, cum, (sh, ci) :: rest =>
      let attempted := force || (ci && decide (cum < cfg.maxInlinedBytecodeSizeCumulative))
      let changed := attempted && orc.inlChanged nid i
      let cum' := if changed then cum + sh.bytecodeLength else cum
      let r := inlineBranches cfg orc nid force (i + 1) cum' rest
      (r.1, (if changed then BranchOutcome.substituted else BranchOutcome.residual) :: r.2)

/-- InlineCandidate, lines 502-588, restricted to its budget/outcome
behaviour: with a single target it delegates to the external inliner and
adds the target's bytecode length iff the reduction changed (lines
506-516); with several targets it builds the dispatch and then runs the
per-branch loop of lines 571-585, finally returning Replace(value), i.e.
a changed reduction. -/
def InlineCandidate (cfg : Config) (orc : Oracles) (c : Candidate) (force : Bool)
    (cum : Nat) : Bool × Nat :=
  match c.targets with
  | [sh] =>
      if orc.inlChanged c.nodeId 0 then (true, cum + sh.bytecodeLength) else (false, cum)
  | _ =>
      (true, (inlineBranches cfg orc c.nodeId force 0 cum (c.targets.zip c.canInlineFlags)).1)

/-- InlineCandidate acting on the heuristic state. -/
def runInlineCandidate (cfg : Config) (orc : Oracles) (c : Candidate) (force : Bool)
    (s : HState) : Bool × HState :=
  let r := InlineCandidate cfg orc c force s.cumulative
  (r.1, { s with cumulative := r.2 })

/-- The frequency threshold test of lines 171-174. -/
def frequencyBelowMin (cfg : Config) : Frequency → Bool
  | .unknown => false
  | .known v => decide (v < cfg.minInliningFrequency)

/-- std::set::insert for the candidates_ set ordered by CandidateCompare:
the element is placed before the first element it compares ahead of; if an
equivalent element is already present (neither compares ahead), the set is
unchanged. -/
def setInsert (c : Candidate) : List Candidate → List Candidate
  | [] => [c]
  | x :: xs =>
      if CandidateCompare c x then c :: x :: xs
      else if CandidateCompare x c then x :: setInsert c xs
      else x :: xs

/-- Reduce, lines 83-188. -/
def Reduce (cfg : Config) (mode : Mode) (orc : Oracles) (n : CallNode) (s : HState) :
    Bool × HState :=
  if n.isInlinee = false then (false, s)
  else if n.id ∈ s.seen then (false, s)
  else
    let s1 : HState := { s with seen := n.id :: s.seen }
    let fns := (CollectFunctions n.callee cfg.maxCallPolymorphism).1
    let shOpt := (CollectFunctions n.callee cfg.maxCallPolymorphism).2
    if fns.length = 0 then (false, s1)
    else if fns.length > 1 && !cfg.polymorphicInlining then (false, s1)
    else
      let targets := fns.map (targetShared shOpt)
      let a := analyzeTargets cfg targets
      let cand : Candidate := ⟨n.id, targets, a.canInlineFlags, a.totalSize, n.frequency⟩
      if a.forceAll then runInlineCandidate cfg orc cand true s1
      else if !a.canInline then (false, s1)
      else if n.frameChainJS.count true > cfg.maxInliningLevels then (false, s1)
      else
        match mode with
        | .restricted => (false, s1)
        | .stress => runInlineCandidate cfg orc cand false s1
        | .general =>
            if frequencyBelowMin cfg n.frequency then (false, s1)
            else if a.smallAll && decide (s1.cumulative ≤ cfg.maxInlinedBytecodeSizeAbsolute) then
              runInlineCandidate cfg orc cand true s1
            else (false, { s1 with backlog := setInsert cand s1.backlog })

/-- Reserved cost of a backlog candidate, lines 205-207: the total size
scaled by the reserve factor, truncated to an integer. -/
def reservedCost (cfg : Config) (totalSize : Nat) : Nat :=
  totalSize * cfg.reserveScaleNum / cfg.reserveScaleDen

/-- The drain loop of Finalize, lines 198-218, on the sorted backlog:
pop the highest-priority candidate; if the cumulative counter plus the
reserved cost exceeds FLAG_max_inlined_bytecode_size_cumulative, discard
it and continue; if its call node is dead, skip it and continue; otherwise
run InlineCandidate and stop at the first changed reduction.  Returns the
remaining backlog, the final counter, and the substituted candidate if
any. -/
def FinalizeLoop (cfg : Config) (orc : Oracles) :
    List Candidate → Nat → List Candidate × Nat × Option Candidate
  | [], cum => ([], cum, none)
  | c :: rest, cum =>
      if cum + reservedCost cfg c.totalSize > cfg.maxInlinedBytecodeSizeCumulative then
        FinalizeLoop cfg orc rest cum
      else if orc.isDead c.nodeId then
        FinalizeLoop cfg orc rest cum
      else
        let r := InlineCandidate cfg orc c false cum
        if r.1 then (rest, r.2, some c)
        else FinalizeLoop cfg orc rest r.2

/-- Finalize, lines 190-219, acting on the heuristic state. -/
def Finalize (cfg : Config) (orc : Oracles) (s : HState) : HState :=
  let r := FinalizeLoop cfg orc s.backlog s.cumulative
  { s with backlog := r.1, cumulative := r.2.1 }

/-- One driver-visible operation on the heuristic: a Reduce call on some
node or a Finalize call, each with the environment oracles in force at
that time. -/
inductive Op where
  | reduceOp (orc : Oracles) (n : CallNode)
  | finalizeOp (orc : Oracles)

/-- Apply one operation to the heuristic state. -/
def applyOp (cfg : Config) (mode : Mode) (s : HState) : Op → HState
  | .reduceOp orc n => (Reduce cfg mode orc n s).2
  | .finalizeOp orc => Finalize cfg orc s

/-- Apply a sequence of operations to the heuristic state. -/
def applyOps (cfg : Config) (mode : Mode) (s : HState) (ops : List Op) : HState :=
  ops.foldl (applyOp cfg mode) s

/-! ## Priority order of the backlog (C1) -/

/-- Rank of a candidate for the comparator: known frequencies form the
higher class, ordered by value, with the node id breaking ties; unknown
frequencies form the lower class, ordered by node id. -/
def crank (c : Candidate) : Nat × ℚ × Nat :=
  match c.frequency with
  | .unknown => (0, 0, c.nodeId)
  | .known v => (1, v, c.nodeId)

/-- Strict lexicographic order on ranks (first component descending
class, then frequency value, then node id). -/
def lexGT (a b : Nat × ℚ × Nat) : Prop :=
  b.1 < a.1 ∨ (a.1 = b.1 ∧ (b.2.1 < a.2.1 ∨ (a.2.1 = b.2.1 ∧ b.2.2 < a.2.2)))

theorem CandidateCompare_iff_lexGT (l r : Candidate) :
    CandidateCompare l r = true ↔ lexGT (crank l) (crank r) := by
  rcases l with ⟨lid, ltg, lfl, lsz, lfreq⟩
  rcases r with ⟨rid, rtg, rfl_, rsz, rfreq⟩
  cases lfreq with
  | unknown =>
    cases rfreq with
    | unknown => simp [CandidateCompare, crank, lexGT]
    | known rv => simp [CandidateCompare, crank, lexGT]
  | known lv =>
    cases rfreq with
    | unknown => simp [CandidateCompare, crank, lexGT]
    | known rv =>
      simp only [CandidateCompare, crank, lexGT]
      simp only [lt_self_iff_false, false_or, true_and, gt_iff_lt, decide_eq_true_eq]
      split_ifs with h1 h2
      · simp [h1]
      · simp only [false_iff, not_or, not_and]
        exact ⟨h1, fun e => absurd e (ne_of_lt h2)⟩
      · have e : lv = rv := le_antisymm (not_lt.mp h1) (not_lt.mp h2)
        simp [e]

theorem lexGT_irrefl (a : Nat × ℚ × Nat) : ¬ lexGT a a := by
  simp [lexGT]

theorem lexGT_trans {a b c : Nat × ℚ × Nat} (h1 : lexGT a b) (h2 : lexGT b c) :
    lexGT a c := by
  rcases h1 with h1 | ⟨e1, h1⟩ <;> rcases h2 with h2 | ⟨e2, h2⟩
  · exact Or.inl (lt_trans h2 h1)
  · exact Or.inl (e2 ▸ h1)
  · exact Or.inl (e1 ▸ h2)
  · refine Or.inr ⟨e1.trans e2, ?_⟩
    rcases h1 with h1 | ⟨f1, h1⟩ <;> rcases h2 with h2 | ⟨f2, h2⟩
    · exact Or.inl (lt_trans h2 h1)
    · exact Or.inl (f2 ▸ h1)
    · exact Or.inl (f1 ▸ h2)
    · exact Or.inr ⟨f1.trans f2, lt_trans h2 h1⟩

theorem lexGT_asymm {a b : Nat × ℚ × Nat} (h : lexGT a b) : ¬ lexGT b a := by
  intro h2
  exact lexGT_irrefl a (lexGT_trans h h2)

theorem lexGT_total_eq {a b : Nat × ℚ × Nat} (h1 : ¬ lexGT a b) (h2 : ¬ lexGT b a) :
    a = b := by
  rcases a with ⟨a1, a2, a3⟩
  rcases b with ⟨b1, b2, b3⟩
  simp only [lexGT, not_or, not_and, not_lt] at h1 h2
  have e1 : a1 = b1 := le_antisymm h1.1 h2.1
  have h1' := h1.2 e1
  have h2' := h2.2 e1.symm
  simp only [not_or, not_and, not_lt] at h1' h2'
  have e2 : a2 = b2 := le_antisymm h1'.1 h2'.1
  have e3 : a3 = b3 := le_antisymm (h1'.2 e2) (h2'.2 e2.symm)
  simp [e1, e2, e3]

theorem CandidateCompare_trans {a b c : Candidate}
    (h1 : CandidateCompare a b = true) (h2 : CandidateCompare b c = true) :
    CandidateCompare a c = true := by
  rw [CandidateCompare_iff_lexGT] at h1 h2 ⊢
  exact lexGT_trans h1 h2

theorem CandidateCompare_irrefl (c : Candidate) : CandidateCompare c c = false := by
  rw [Bool.eq_false_iff]
  intro h
  exact lexGT_irrefl _ ((CandidateCompare_iff_lexGT c c).1 h)

theorem CandidateCompare_false_iff (l r : Candidate) :
    CandidateCompare l r = false ↔ ¬ lexGT (crank l) (crank r) := by
  rw [Bool.eq_false_iff]
  exact not_congr (CandidateCompare_iff_lexGT l r)

theorem CandidateCompare_of_crank_eq {a c : Candidate} (h : crank a = crank c) :
    CandidateCompare a c = false := by
  rw [CandidateCompare_false_iff, h]
  exact lexGT_irrefl _

/-- C1: the backlog comparator gives a candidate with known frequency
priority over one with unknown frequency; between two known frequencies
the higher value has priority; between two unknown frequencies or two
exactly equal known frequencies the larger call-node id has priority; and
the comparator is a strict weak ordering: irreflexive, asymmetric,
transitive, and with transitive incomparability. -/
theorem C1_candidate_order :
    (∀ l r : Candidate, (∃ v, l.frequency = Frequency.known v) →
        r.frequency = Frequency.unknown → CandidateCompare l r = true) ∧
    (∀ l r : Candidate, l.frequency = Frequency.unknown →
        (∃ v, r.frequency = Frequency.known v) → CandidateCompare l r = false) ∧
    (∀ (l r : Candidate) (lv rv : ℚ), l.frequency = Frequency.known lv →
        r.frequency = Frequency.known rv → rv < lv → CandidateCompare l r = true) ∧
    (∀ (l r : Candidate) (lv rv : ℚ), l.frequency = Frequency.known lv →
        r.frequency = Frequency.known rv → lv < rv → CandidateCompare l r = false) ∧
    (∀ l r : Candidate, l.frequency = Frequency.unknown →
        r.frequency = Frequency.unknown →
        CandidateCompare l r = decide (l.nodeId > r.nodeId)) ∧
    (∀ (l r : Candidate) (v : ℚ), l.frequency = Frequency.known v →
        r.frequency = Frequency.known v →
        CandidateCompare l r = decide (l.nodeId > r.nodeId)) ∧
    (∀ c : Candidate, CandidateCompare c c = false) ∧
    (∀ l r : Candidate, CandidateCompare l r = true → CandidateCompare r l = false) ∧
    (∀ a b c : Candidate, CandidateCompare a b = true → CandidateCompare b c = true →
        CandidateCompare a c = true) ∧
    (∀ a b c : Candidate,
        CandidateCompare a b = false → CandidateCompare b a = false →
        CandidateCompare b c = false → CandidateCompare c b = false →
        CandidateCompare a c = false ∧ CandidateCompare c a = false) := by
  refine ⟨?_, ?_, ?_, ?_, ?_, ?_, CandidateCompare_irrefl, ?_, ?_, ?_⟩
  · rintro l r ⟨v, hv⟩ hr
    simp [CandidateCompare, hv, hr]
  · rintro l r hl ⟨v, hv⟩
    simp [CandidateCompare, hl, hv]
  · intro l r lv rv hl hr h
    simp [CandidateCompare, hl, hr, h]
  · intro l r lv rv hl hr h
    simp [CandidateCompare, hl, hr, h, asymm h]
  · intro l r hl hr
    simp [CandidateCompare, hl, hr]
  · intro l r v hl hr
    simp [CandidateCompare, hl, hr]
  · intro l r h
    rw [CandidateCompare_false_iff]
    exact lexGT_asymm ((CandidateCompare_iff_lexGT l r).1 h)
  · intro a b c h1 h2
    exact CandidateCompare_trans h1 h2
  · intro a b c h1 h2 h3 h4
    have e1 : crank a = crank b :=
      lexGT_total_eq ((CandidateCompare_false_iff a b).1 h1)
        ((CandidateCompare_false_iff b a).1 h2)
    have e2 : crank b = crank c :=
      lexGT_total_eq ((CandidateCompare_false_iff b c).1 h3)
        ((CandidateCompare_false_iff c b).1 h4)
    exact ⟨CandidateCompare_of_crank_eq (e1.trans e2),
      CandidateCompare_of_crank_eq ((e1.trans e2).symm)⟩

/-- Witness for C1 at concrete candidates: a known frequency beats an
unknown one, and the converse comparison is false. -/
theorem C1_candidate_order_witness :
    CandidateCompare ⟨2, [], [], 0, Frequency.known 5⟩ ⟨3, [], [], 0, Frequency.unknown⟩
        = true ∧
    CandidateCompare ⟨3, [], [], 0, Frequency.unknown⟩ ⟨2, [], [], 0, Frequency.known 5⟩
        = false :=
  ⟨C1_candidate_order.1 ⟨2, [], [], 0, Frequency.known 5⟩
      ⟨3, [], [], 0, Frequency.unknown⟩ ⟨5, rfl⟩ rfl,
   C1_candidate_order.2.1 ⟨3, [], [], 0, Frequency.unknown⟩
      ⟨2, [], [], 0, Frequency.known 5⟩ rfl ⟨5, rfl⟩⟩

/-! ## The Finalize drain step (C2) -/

theorem mem_setInsert {y c : Candidate} {l : List Candidate}
    (h : y ∈ setInsert c l) : y = c ∨ y ∈ l := by
  induction l with
  | nil => simpa [setInsert] using h
  | cons x xs ih =>
    unfold setInsert at h
    split_ifs at h with h1 h2
    · rcases List.mem_cons.mp h with rfl | h
      · exact Or.inl rfl
      · exact Or.inr h
    · rcases List.mem_cons.mp h with rfl | h
      · exact Or.inr (List.mem_cons_self _ _)
      · rcases ih h with rfl | h
        · exact Or.inl rfl
        · exact Or.inr (List.mem_cons_of_mem _ h)
    · exact Or.inr h

theorem setInsert_pairwise (c : Candidate) (l : List Candidate)
    (h : l.Pairwise (fun a b => CandidateCompare a b = true)) :
    (setInsert c l).Pairwise (fun a b => CandidateCompare a b = true) := by
  induction l with
  | nil => simp [setInsert]
  | cons x xs ih =>
    rw [List.pairwise_cons] at h
    obtain ⟨hx, hxs⟩ := h
    unfold setInsert
    split_ifs with h1 h2
    · refine List.Pairwise.cons ?_ (List.Pairwise.cons hx hxs)
      intro y hy
      rcases List.mem_cons.mp hy with rfl | hy
      · exact h1
      · exact CandidateCompare_trans h1 (hx y hy)
    · refine List.Pairwise.cons ?_ (ih hxs)
      intro y hy
      rcases mem_setInsert hy with rfl | hy
      · exact h2
      · exact hx y hy
    · exact List.Pairwise.cons hx hxs

/-- C2: the Finalize drain removes candidates in priority order (the
backlog insertion keeps the list sorted by the comparator, so the popped
head has priority over every remaining candidate); an over-budget head —
cumulative counter plus reserved cost exceeding the cumulative cap — is
discarded and the drain continues on the rest with the counter unchanged;
a dead head is skipped the same way; a head whose substitution reports a
change terminates the drain at once with the rest of the backlog intact;
a head whose substitution reports no change lets the drain continue; and
an empty backlog yields no action at all. -/
theorem C2_finalize_drain :
    (∀ (cfg : Config) (orc : Oracles) (cum : Nat),
        FinalizeLoop cfg orc [] cum = ([], cum, none)) ∧
    (∀ (c : Candidate) (rest : List Candidate),
        (c :: rest).Pairwise (fun a b => CandidateCompare a b = true) →
        ∀ x ∈ rest, CandidateCompare c x = true) ∧
    (∀ (c : Candidate) (l : List Candidate),
        l.Pairwise (fun a b => CandidateCompare a b = true) →
        (setInsert c l).Pairwise (fun a b => CandidateCompare a b = true)) ∧
    (∀ (cfg : Config) (orc : Oracles) (c : Candidate) (rest : List Candidate) (cum : Nat),
        cum + reservedCost cfg c.totalSize > cfg.maxInlinedBytecodeSizeCumulative →
        FinalizeLoop cfg orc (c :: rest) cum = FinalizeLoop cfg orc rest cum) ∧
    (∀ (cfg : Config) (orc : Oracles) (c : Candidate) (rest : List Candidate) (cum : Nat),
        ¬ cum + reservedCost cfg c.totalSize > cfg.maxInlinedBytecodeSizeCumulative →
        orc.isDead c.nodeId = true →
        FinalizeLoop cfg orc (c :: rest) cum = FinalizeLoop cfg orc rest cum) ∧
    (∀ (cfg : Config) (orc : Oracles) (c : Candidate) (rest : List Candidate) (cum : Nat),
        ¬ cum + reservedCost cfg c.totalSize > cfg.maxInlinedBytecodeSizeCumulative →
        orc.isDead c.nodeId = false →
        (InlineCandidate cfg orc c false cum).1 = true →
        FinalizeLoop cfg orc (c :: rest) cum =
          (rest, (InlineCandidate cfg orc c false cum).2, some c)) ∧
    (∀ (cfg : Config) (orc : Oracles) (c : Candidate) (rest : List Candidate) (cum : Nat),
        ¬ cum + reservedCost cfg c.totalSize > cfg.maxInlinedBytecodeSizeCumulative →
        orc.isDead c.nodeId = false →
        (InlineCandidate cfg orc c false cum).1 = false →
        FinalizeLoop cfg orc (c :: rest) cum =
          FinalizeLoop cfg orc rest (InlineCandidate cfg orc c false cum).2) := by
  refine ⟨fun _ _ _ => rfl, ?_, setInsert_pairwise, ?_, ?_, ?_, ?_⟩
  · intro c rest h x hx
    exact (List.pairwise_cons.mp h).1 x hx
  · intro cfg orc c rest cum h
    simp only [FinalizeLoop]
    rw [if_pos h]
  · intro cfg orc c rest cum h hd
    simp only [FinalizeLoop]
    rw [if_neg h, if_pos hd]
  · intro cfg orc c rest cum h hd hch
    simp only [FinalizeLoop]
    rw [if_neg h, if_neg (by simp [hd]), if_pos hch]
  · intro cfg orc c rest cum h hd hch
    simp only [FinalizeLoop]
    rw [if_neg h, if_neg (by simp [hd]), if_neg (by simp [hch])]

/-- Witness for C2 at concrete inputs: a candidate of total size 1000
against cumulative cap 500 (reserve factor 6/5) is discarded, leaving the
drain to continue on the empty rest. -/
theorem C2_finalize_drain_witness :
    FinalizeLoop ⟨100, 10, 1000, 500, 6, 5, (1 : ℚ), 5, true, 4⟩
        ⟨fun _ _ => true, fun _ => false⟩
        [⟨1, [⟨false, true, true, 1000, false⟩], [true], 1000, Frequency.known 9⟩] 0 =
      FinalizeLoop ⟨100, 10, 1000, 500, 6, 5, (1 : ℚ), 5, true, 4⟩
        ⟨fun _ _ => true, fun _ => false⟩ [] 0 :=
  C2_finalize_drain.2.2.2.1 _ _ _ _ _ (by decide)

/-! ## Budget counter monotonicity (C3) -/

/-- Total bytecode size of the branches whose outcome is substituted. -/
def substSizes : List (SharedInfo × Bool) → List BranchOutcome → Nat
  | (sh, _) :: rest, BranchOutcome.substituted :: outs =>
      sh.bytecodeLength + substSizes rest outs
  | _ :: rest, BranchOutcome.residual :: outs => substSizes rest outs
  | _, _ => 0

theorem inlineBranches_sum (cfg : Config) (orc : Oracles) (nid : Nat) (force : Bool) :
    ∀ (l : List (SharedInfo × Bool)) (i cum : Nat),
      (inlineBranches cfg orc nid force i cum l).1 =
        cum + substSizes l (inlineBranches cfg orc nid force i cum l).2 := by
  intro l
  induction l with
  | nil => intro i cum; simp [inlineBranches, substSizes]
  | cons p rest ih =>
    rcases p with ⟨sh, ci⟩
    intro i cum
    simp only [inlineBranches]
    cases hch : (force || (ci && decide (cum < cfg.maxInlinedBytecodeSizeCumulative)))
        && orc.inlChanged nid i with
    | true =>
      simp only [hch, if_true, substSizes]
      rw [ih (i + 1) (cum + sh.bytecodeLength)]
      omega
    | false =>
      simp only [hch, Bool.false_eq_true, if_false, substSizes]
      exact ih (i + 1) cum

theorem inlineBranches_cum_le (cfg : Config) (orc : Oracles) (nid : Nat) (force : Bool)
    (l : List (SharedInfo × Bool)) (i cum : Nat) :
    cum ≤ (inlineBranches cfg orc nid force i cum l).1 := by
  rw [inlineBranches_sum]
  exact Nat.le_add_right _ _

theorem InlineCandidate_cum_le (cfg : Config) (orc : Oracles) (c : Candidate)
    (force : Bool) (cum : Nat) : cum ≤ (InlineCandidate cfg orc c force cum).2 := by
  rcases c with ⟨nid, targets, flags, ts, freq⟩
  match targets with
  | [] => exact inlineBranches_cum_le _ _ _ _ _ _ _
  | [sh] =>
    simp only [InlineCandidate]
    split <;> simp
  | a :: b :: t => exact inlineBranches_cum_le _ _ _ _ _ _ _

theorem runInlineCandidate_cum_le (cfg : Config) (orc : Oracles) (c : Candidate)
    (force : Bool) (s : HState) :
    s.cumulative ≤ ((runInlineCandidate cfg orc c force s).2).cumulative :=
  InlineCandidate_cum_le cfg orc c force s.cumulative

set_option maxHeartbeats 1000000 in
theorem Reduce_cum_le (cfg : Config) (mode : Mode) (orc : Oracles) (n : CallNode)
    (s : HState) : s.cumulative ≤ ((Reduce cfg mode orc n s).2).cumulative := by
  cases mode <;>
    · simp only [Reduce]
      split_ifs <;>
        first
          | exact le_refl _
          | exact runInlineCandidate_cum_le _ _ _ _ _

theorem FinalizeLoop_cum_le (cfg : Config) (orc : Oracles) :
    ∀ (l : List Candidate) (cum : Nat), cum ≤ (FinalizeLoop cfg orc l cum).2.1 := by
  intro l
  induction l with
  | nil => intro cum; exact le_refl _
  | cons c rest ih =>
    intro cum
    simp only [FinalizeLoop]
    split_ifs with h1 h2 h3
    · exact ih cum
    · exact ih cum
    · exact InlineCandidate_cum_le _ _ _ _ _
    · exact le_trans (InlineCandidate_cum_le _ _ _ _ _) (ih _)

theorem applyOp_cum_le (cfg : Config) (mode : Mode) (s : HState) (op : Op) :
    s.cumulative ≤ (applyOp cfg mode s op).cumulative := by
  cases op with
  | reduceOp orc n => exact Reduce_cum_le cfg mode orc n s
  | finalizeOp orc => exact FinalizeLoop_cum_le cfg orc s.backlog s.cumulative

theorem applyOps_cum_le (cfg : Config) (mode : Mode) :
    ∀ (ops : List Op) (s : HState),
      s.cumulative ≤ (applyOps cfg mode s ops).cumulative := by
  intro ops
  induction ops with
  | nil => intro s; exact le_refl _
  | cons op ops ih =>
    intro s
    exact le_trans (applyOp_cum_le cfg mode s op) (ih _)

/-- C3: the cumulative budget counter is non-decreasing across every
sequence of Reduce and Finalize operations; a monomorphic substitution
adds exactly the target's bytecode length when the inliner reports a
change and nothing otherwise; the polymorphic loop adds exactly the sum of
the bytecode lengths of the substituted branches; and the discard and
dead-skip steps of the drain leave the counter unchanged. -/
theorem C3_budget_monotone :
    (∀ (cfg : Config) (mode : Mode) (s : HState) (ops : List Op),
        s.cumulative ≤ (applyOps cfg mode s ops).cumulative) ∧
    (∀ (cfg : Config) (orc : Oracles) (nid : Nat) (sh : SharedInfo)
        (flags : List Bool) (ts : Nat) (freq : Frequency) (force : Bool) (cum : Nat),
        InlineCandidate cfg orc ⟨nid, [sh], flags, ts, freq⟩ force cum =
          if orc.inlChanged nid 0 then (true, cum + sh.bytecodeLength)
          else (false, cum)) ∧
    (∀ (cfg : Config) (orc : Oracles) (nid : Nat) (force : Bool)
        (l : List (SharedInfo × Bool)) (i cum : Nat),
        (inlineBranches cfg orc nid force i cum l).1 =
          cum + substSizes l (inlineBranches cfg orc nid force i cum l).2) ∧
    (∀ (cfg : Config) (orc : Oracles) (c : Candidate) (rest : List Candidate) (cum : Nat),
        cum + reservedCost cfg c.totalSize > cfg.maxInlinedBytecodeSizeCumulative ∨
          orc.isDead c.nodeId = true →
        (FinalizeLoop cfg orc (c :: rest) cum).2.1 =
          (FinalizeLoop cfg orc rest cum).2.1) := by
  refine ⟨fun cfg mode s ops => applyOps_cum_le cfg mode ops s,
    fun _ _ _ _ _ _ _ _ _ => rfl,
    fun cfg orc nid force l i cum => inlineBranches_sum cfg orc nid force l i cum, ?_⟩
  intro cfg orc c rest cum h
  simp only [FinalizeLoop]
  rcases h with h | h
  · rw [if_pos h]
  · by_cases h1 : cum + reservedCost cfg c.totalSize > cfg.maxInlinedBytecodeSizeCumulative
    · rw [if_pos h1]
    · rw [if_neg h1, if_pos h]

/-- Witness for C3 at a concrete input: the discard step of the drain
leaves the counter unchanged. -/
theorem C3_budget_monotone_witness :
    (FinalizeLoop ⟨100, 10, 1000, 500, 6, 5, (1 : ℚ), 5, true, 4⟩
        ⟨fun _ _ => true, fun _ => false⟩
        [⟨1, [⟨false, true, true, 1000, false⟩], [true], 1000, Frequency.known 9⟩]
        0).2.1 =
      (FinalizeLoop ⟨100, 10, 1000, 500, 6, 5, (1 : ℚ), 5, true, 4⟩
        ⟨fun _ _ => true, fun _ => false⟩ [] 0).2.1 :=
  C3_budget_monotone.2.2.2 _ _ _ _ _ (Or.inl (by decide))

/-! ## The polymorphic substitution path (C4) -/

theorem inlineBranches_length (cfg : Config) (orc : Oracles) (nid : Nat) (force : Bool) :
    ∀ (l : List (SharedInfo × Bool)) (i cum : Nat),
      (inlineBranches cfg orc nid force i cum l).2.length = l.length := by
  intro l
  induction l with
  | nil => intro i cum; rfl
  | cons p rest ih =>
    rcases p with ⟨sh, ci⟩
    intro i cum
    simp only [inlineBranches, List.length_cons]
    rw [ih]

theorem inlineBranches_getD (cfg : Config) (orc : Oracles) (nid : Nat) (force : Bool) :
    ∀ (l : List (SharedInfo × Bool)) (i cum j : Nat), j < l.length →
      (inlineBranches cfg orc nid force i cum l).2.getD j BranchOutcome.residual =
        (if (force || ((l.getD j (default, false)).2 &&
              decide (cum + substSizes (l.take j)
                  ((inlineBranches cfg orc nid force i cum l).2.take j)
                < cfg.maxInlinedBytecodeSizeCumulative)))
            && orc.inlChanged nid (i + j)
         then BranchOutcome.substituted else BranchOutcome.residual) := by
  intro l
  induction l with
  | nil => intro i cum j hj; exact absurd hj (by simp)
  | cons p rest ih =>
    rcases p with ⟨sh, ci⟩
    intro i cum j hj
    simp only [inlineBranches]
    by_cases hch : ((force || (ci && decide (cum < cfg.maxInlinedBytecodeSizeCumulative)))
        && orc.inlChanged nid i) = true
    · simp only [hch, eq_self_iff_true, if_true]
      cases j with
      | zero => simp [substSizes, hch]
      | succ j =>
        simp only [List.getD_cons_succ, List.take_succ_cons, substSizes]
        rw [ih (i + 1) (cum + sh.bytecodeLength) j (by simpa using hj)]
        have e1 : i + 1 + j = i + (j + 1) := by omega
        simp only [Nat.add_assoc, e1]
    · rw [Bool.not_eq_true] at hch
      simp only [hch, Bool.false_eq_true, if_false]
      cases j with
      | zero => simp [substSizes, hch]
      | succ j =>
        simp only [List.getD_cons_succ, List.take_succ_cons, substSizes]
        rw [ih (i + 1) cum j (by simpa using hj)]
        have e1 : i + 1 + j = i + (j + 1) := by omega
        simp only [e1]

/-- C4: in the polymorphic loop, branch j is substituted — its
specialized call killed and its size charged — if and only if the force
flag is set for the operation, or that branch is individually flagged
inlinable and the cumulative counter, as it stands when that branch is
decided (the entry counter plus the sizes substituted by the earlier
branches), is strictly below the cumulative cap, and the external inliner
reports a change for that branch; any branch that is not substituted is
left as a live residual call; and the final counter is the entry counter
plus exactly the sizes of the substituted branches. -/
theorem C4_polymorphic_branches (cfg : Config) (orc : Oracles) (nid : Nat)
    (force : Bool) (l : List (SharedInfo × Bool)) (cum : Nat) :
    (inlineBranches cfg orc nid force 0 cum l).2.length = l.length ∧
    (inlineBranches cfg orc nid force 0 cum l).1 =
      cum + substSizes l (inlineBranches cfg orc nid force 0 cum l).2 ∧
    ∀ j, j < l.length →
      ((inlineBranches cfg orc nid force 0 cum l).2.getD j BranchOutcome.residual =
          BranchOutcome.substituted ↔
        (force = true ∨ ((l.getD j (default, false)).2 = true ∧
            cum + substSizes (l.take j)
                ((inlineBranches cfg orc nid force 0 cum l).2.take j)
              < cfg.maxInlinedBytecodeSizeCumulative)) ∧
          orc.inlChanged nid j = true) := by
  refine ⟨inlineBranches_length cfg orc nid force l 0 cum,
    inlineBranches_sum cfg orc nid force l 0 cum, ?_⟩
  intro j hj
  rw [inlineBranches_getD cfg orc nid force l 0 cum j hj]
  rw [Nat.zero_add]
  have hb : ∀ b : Bool,
      (if b then BranchOutcome.substituted else BranchOutcome.residual) =
          BranchOutcome.substituted ↔ b = true := by
    intro b
    cases b <;> simp
  rw [hb]
  simp [Bool.and_eq_true, Bool.or_eq_true, decide_eq_true_eq]

/-- Sample values used by concrete witnesses. -/
def wSh300 : SharedInfo := ⟨false, true, true, 300, false⟩

def wBranches : List (SharedInfo × Bool) := [(wSh300, true), (wSh300, true)]

def wCfg : Config := ⟨1000, 10, 1000, 500, 6, 5, (1 : ℚ), 5, true, 4⟩

def wOrc : Oracles := ⟨fun _ _ => true, fun _ => false⟩

/-- Witness for C4 at concrete inputs: two inlinable targets of size 300
against cumulative cap 500, entry counter 0, inliner changing everything:
branch 1 is decided at counter 300, still under the cap. -/
theorem C4_polymorphic_branches_witness :
    (inlineBranches wCfg wOrc 1 false 0 0 wBranches).2.getD 1 BranchOutcome.residual =
        BranchOutcome.substituted ↔
      (false = true ∨ ((wBranches.getD 1 (default, false)).2 = true ∧
          0 + substSizes (wBranches.take 1)
              ((inlineBranches wCfg wOrc 1 false 0 0 wBranches).2.take 1)
            < wCfg.maxInlinedBytecodeSizeCumulative)) ∧
        wOrc.inlChanged 1 1 = true :=
  (C4_polymorphic_branches wCfg wOrc 1 false wBranches 0).2.2 1 (by decide)

/-! ## The polymorphism cap (C5) -/

/-- C5: a callee phi with more value inputs than the polymorphism cap
collects zero targets — it is never partially resolved to a prefix — and
Reduce on such a call site produces no candidate at all: it reports no
change, enqueues nothing, and leaves the budget counter unchanged,
regardless of the eligibility of the individual phi inputs. -/
theorem C5_polymorphism_cap :
    (∀ (valueInputs : List (Option JSFunc)) (functionsSize : Nat),
        valueInputs.length > functionsSize →
        CollectFunctions (CalleeNode.phi valueInputs) functionsSize = ([], none)) ∧
    (∀ (cfg : Config) (mode : Mode) (orc : Oracles) (n : CallNode) (s : HState)
        (valueInputs : List (Option JSFunc)),
        n.callee = CalleeNode.phi valueInputs →
        valueInputs.length > cfg.maxCallPolymorphism →
        (Reduce cfg mode orc n s).1 = false ∧
        ((Reduce cfg mode orc n s).2).backlog = s.backlog ∧
        ((Reduce cfg mode orc n s).2).cumulative = s.cumulative) := by
  constructor
  · intro vi fs h
    simp only [CollectFunctions]
    rw [if_pos h]
  · intro cfg mode orc n s vi hcal hlen
    have hcf : CollectFunctions n.callee cfg.maxCallPolymorphism = ([], none) := by
      rw [hcal]
      simp only [CollectFunctions]
      rw [if_pos hlen]
    by_cases hop : n.isInlinee = false
    · simp [Reduce, hop]
    · by_cases hseen : n.id ∈ s.seen
      · simp [Reduce, hop, hseen]
      · simp [Reduce, hop, hseen, hcf]

/-- Witness for C5 at a concrete input: a phi over five constant
functions against a cap of four collects no targets, and Reduce on it is
a complete no-op apart from the seen-set. -/
theorem C5_polymorphism_cap_witness :
    CollectFunctions
        (CalleeNode.phi [some ⟨wSh300⟩, some ⟨wSh300⟩, some ⟨wSh300⟩,
          some ⟨wSh300⟩, some ⟨wSh300⟩]) 4 = ([], none) ∧
    (Reduce wCfg Mode.general wOrc
        ⟨9, true, CalleeNode.phi [some ⟨wSh300⟩, some ⟨wSh300⟩, some ⟨wSh300⟩,
          some ⟨wSh300⟩, some ⟨wSh300⟩], [], Frequency.known 9⟩
        ⟨[], [], 0⟩).1 = false :=
  ⟨C5_polymorphism_cap.1 _ 4 (by decide),
   (C5_polymorphism_cap.2 wCfg Mode.general wOrc
      ⟨9, true, CalleeNode.phi [some ⟨wSh300⟩, some ⟨wSh300⟩, some ⟨wSh300⟩,
        some ⟨wSh300⟩, some ⟨wSh300⟩], [], Frequency.known 9⟩
      ⟨[], [], 0⟩ _ rfl (by decide)).1⟩

/-! ## General mode dispatch (C6) -/

/-- C6: in general mode, a candidate surviving the earlier checks (an
inlinee opcode not seen before, a non-empty target collection, the
polymorphic-inlining flag when more than one target, not all targets
force-inlined, at least one inlinable target, inlining depth within
bounds) is discarded with no enqueue and no inlining when its frequency is
known and below the minimum threshold; otherwise it is substituted
immediately when all its targets are small and the cumulative counter is
within the absolute cap; otherwise it is inserted into the backlog and the
Reduce call reports no change. -/
theorem C6_general_mode (cfg : Config) (orc : Oracles) (n : CallNode) (s : HState)
    (fns : List (Option JSFunc)) (shOpt : Option SharedInfo)
    (h1 : n.isInlinee = true) (h2 : n.id ∉ s.seen)
    (hcf : CollectFunctions n.callee cfg.maxCallPolymorphism = (fns, shOpt))
    (hne : fns.length ≠ 0)
    (hpoly : fns.length > 1 → cfg.polymorphicInlining = true)
    (hforce : (analyzeTargets cfg (fns.map (targetShared shOpt))).forceAll = false)
    (hcan : (analyzeTargets cfg (fns.map (targetShared shOpt))).canInline = true)
    (hdepth : ¬ n.frameChainJS.count true > cfg.maxInliningLevels) :
    (frequencyBelowMin cfg n.frequency = true →
        Reduce cfg Mode.general orc n s = (false, { s with seen := n.id :: s.seen })) ∧
    (frequencyBelowMin cfg n.frequency = false →
      ((analyzeTargets cfg (fns.map (targetShared shOpt))).smallAll = true ∧
          s.cumulative ≤ cfg.maxInlinedBytecodeSizeAbsolute →
        Reduce cfg Mode.general orc n s =
          runInlineCandidate cfg orc
            ⟨n.id, fns.map (targetShared shOpt),
             (analyzeTargets cfg (fns.map (targetShared shOpt))).canInlineFlags,
             (analyzeTargets cfg (fns.map (targetShared shOpt))).totalSize,
             n.frequency⟩ true { s with seen := n.id :: s.seen }) ∧
      (¬ ((analyzeTargets cfg (fns.map (targetShared shOpt))).smallAll = true ∧
          s.cumulative ≤ cfg.maxInlinedBytecodeSizeAbsolute) →
        Reduce cfg Mode.general orc n s =
          (false, { s with
                      seen := n.id :: s.seen,
                      backlog := setInsert
                        ⟨n.id, fns.map (targetShared shOpt),
                         (analyzeTargets cfg (fns.map (targetShared shOpt))).canInlineFlags,
                         (analyzeTargets cfg (fns.map (targetShared shOpt))).totalSize,
                         n.frequency⟩ s.backlog }))) := by
  have h1' : ¬ n.isInlinee = false := by simp [h1]
  have hpoly' : ¬ ((decide (fns.length > 1) && !cfg.polymorphicInlining) = true) := by
    by_cases hl : fns.length > 1
    · simp [hl, hpoly hl]
    · simp [hl]
  have hforce' :
      ¬ ((analyzeTargets cfg (fns.map (targetShared shOpt))).forceAll = true) := by
    simp [hforce]
  have hcan' :
      ¬ ((! (analyzeTargets cfg (fns.map (targetShared shOpt))).canInline) = true) := by
    simp [hcan]
  have key : Reduce cfg Mode.general orc n s =
      (if frequencyBelowMin cfg n.frequency then
        (false, { s with seen := n.id :: s.seen })
      else if (analyzeTargets cfg (fns.map (targetShared shOpt))).smallAll &&
          decide (s.cumulative ≤ cfg.maxInlinedBytecodeSizeAbsolute) then
        runInlineCandidate cfg orc
          ⟨n.id, fns.map (targetShared shOpt),
           (analyzeTargets cfg (fns.map (targetShared shOpt))).canInlineFlags,
           (analyzeTargets cfg (fns.map (targetShared shOpt))).totalSize,
           n.frequency⟩ true { s with seen := n.id :: s.seen }
      else (false, { s with
                       seen := n.id :: s.seen,
                       backlog := setInsert
                         ⟨n.id, fns.map (targetShared shOpt),
                          (analyzeTargets cfg (fns.map (targetShared shOpt))).canInlineFlags,
                          (analyzeTargets cfg (fns.map (targetShared shOpt))).totalSize,
                          n.frequency⟩ s.backlog })) := by
    simp only [Reduce, hcf, if_neg h1', if_neg h2, if_neg hne, if_neg hpoly',
      if_neg hforce', if_neg hcan', if_neg hdepth]
  refine ⟨?_, ?_⟩
  · intro hf
    rw [key, if_pos hf]
  · intro hf
    refine ⟨?_, ?_⟩
    · rintro ⟨hsm, hcum⟩
      rw [key, if_neg (by simp [hf]), if_pos (by simp [hsm, hcum])]
    · intro hnot
      rw [key, if_neg (by simp [hf]), if_neg (by
        intro hb
        rw [Bool.and_eq_true, decide_eq_true_eq] at hb
        exact hnot ⟨hb.1, hb.2⟩)]

/-- Witness for C6 at concrete inputs: a monomorphic candidate of size
300 (not small, threshold 10), unknown frequency, in general mode, is
enqueued into the backlog and Reduce reports no change. -/
theorem C6_general_mode_witness :
    Reduce wCfg Mode.general wOrc
        ⟨5, true, CalleeNode.constFn ⟨wSh300⟩, [], Frequency.unknown⟩ ⟨[], [], 0⟩ =
      (false, ⟨[5], setInsert ⟨5, [wSh300], [true], 300, Frequency.unknown⟩ [], 0⟩) :=
  (((C6_general_mode wCfg wOrc
      ⟨5, true, CalleeNode.constFn ⟨wSh300⟩, [], Frequency.unknown⟩ ⟨[], [], 0⟩
      [some ⟨wSh300⟩] none rfl (by decide) rfl (by decide) (by decide) (by decide)
      (by decide) (by decide)).2 (by decide)).2 (by decide)).trans (by decide)

/-! ## Snapshot-tree duplication (C7) -/

/-- StateCloneMode: kCloneState / kChangeInPlace. -/
inductive StateCloneMode where
  | cloneState
  | changeInPlace
deriving DecidableEq, Repr

/-- A node of the snapshot metadata forest as inspected by the
duplication and use-collection routines: its id, its use count at the
time of the call, whether its opcode is kStateValues, and its inputs.
Inputs whose opcode is not kStateValues are never recursed into; only
their identity is compared against the renamed node. -/
inductive StateTree where
  | node (nid : Nat) (useCount : Nat) (isSV : Bool) (inputs : List StateTree)
deriving Repr

def StateTree.nid : StateTree → Nat
  | .node i _ _ _ => i

def StateTree.useCount : StateTree → Nat
  | .node _ u _ _ => u

def StateTree.isSV : StateTree → Bool
  | .node _ _ b _ => b

/-- How a duplication call touched the node it was given: untouched (the
original node returned, no ReplaceInput performed on it), mutated in
place (ReplaceInput performed on the original), or cloned (a fresh
CloneNode carries the changes). -/
inductive Touch where
  | untouched
  | mutatedInPlace
  | cloned
deriving DecidableEq, Repr

mutual

/-- DuplicateStateValuesAndRename, lines 251-276.  A node with use count
above one is returned unchanged (it is shared with other users).
Otherwise each input is processed: a kStateValues input recursively; an
input equal to the renamed-from node is kept as that very node (line 264
sets processed to the from-node itself); any other input is kept.  A copy
is made — or, in change-in-place mode, the original node is mutated —
only when some processed input is a new node, which happens only when the
recursion returned a fresh clone (line 268's pointer comparison; an
in-place mutation keeps the same node identity). -/
def DuplicateStateValuesAndRename (fro tgt : Nat) (mode : StateCloneMode) :
    StateTree → StateTree × Touch
  | .node i u b inputs =>
      if u > 1 then (.node i u b inputs, Touch.untouched)
      else
        let ps := dsvrInputs fro tgt mode inputs
        if ps.any (fun p => p.2) then
          (.node i u b (ps.map (fun p => p.1)),
           if mode = StateCloneMode.changeInPlace then Touch.mutatedInPlace
           else Touch.cloned)
        else (.node i u b inputs, Touch.untouched)

/-- The loop over inputs of lines 258-274; the Bool marks whether the
processed input is a node distinct from the original input. -/
def dsvrInputs (fro tgt : Nat) (mode : StateCloneMode) :
    List StateTree → List (StateTree × Bool)
  | [] => []
  | input :: rest =>
      (if input.isSV then
        (let r := DuplicateStateValuesAndRename fro tgt mode input
         (r.1, r.2 == Touch.cloned))
      else if input.nid = fro then (input, false)
      else (input, false)) :: dsvrInputs fro tgt mode rest

end

/-- Structural strong induction over state trees. -/
theorem stateTree_strongInd (motive : StateTree → Prop)
    (h : ∀ i u b inputs, (∀ t ∈ inputs, motive t) →
        motive (StateTree.node i u b inputs)) :
    ∀ t, motive t := by
  have H : ∀ (n : Nat) (t : StateTree), sizeOf t ≤ n → motive t := by
    intro n
    induction n with
    | zero =>
      intro t ht
      cases t with
      | node i u b inputs =>
        simp only [StateTree.node.sizeOf_spec] at ht
        omega
    | succ n ih =>
      intro t ht
      cases t with
      | node i u b inputs =>
        apply h
        intro x hx
        apply ih
        have h1 : sizeOf x < sizeOf inputs := List.sizeOf_lt_of_mem hx
        simp only [StateTree.node.sizeOf_spec] at ht
        omega
  intro t
  exact H (sizeOf t) t (le_refl _)

theorem dsvrInputs_of_id (fro tgt : Nat) (mode : StateCloneMode) :
    ∀ (l : List StateTree),
      (∀ t ∈ l, DuplicateStateValuesAndRename fro tgt mode t = (t, Touch.untouched)) →
      dsvrInputs fro tgt mode l = l.map (fun t => (t, false)) := by
  intro l
  induction l with
  | nil => intro _; rfl
  | cons input rest ih =>
    intro h
    simp only [dsvrInputs, List.map_cons]
    rw [ih (fun t ht => h t (List.mem_cons_of_mem _ ht))]
    have hh := h input (List.mem_cons_self _ _)
    by_cases hsv : input.isSV = true
    · simp [hsv, hh]
    · rw [Bool.not_eq_true] at hsv
      by_cases hf : input.nid = fro
      · simp [hsv, hf]
      · simp [hsv, hf]

/-- In this revision the state-values renaming is the identity: line 264
keeps the renamed-from input unchanged, so no input is ever replaced, no
clone is ever made, and no node is ever mutated. -/
theorem dsvr_id (fro tgt : Nat) (mode : StateCloneMode) :
    ∀ t : StateTree,
      DuplicateStateValuesAndRename fro tgt mode t = (t, Touch.untouched) := by
  apply stateTree_strongInd
    (motive := fun t =>
      DuplicateStateValuesAndRename fro tgt mode t = (t, Touch.untouched))
  intro i u b inputs ih
  simp only [DuplicateStateValuesAndRename]
  by_cases hu : u > 1
  · rw [if_pos hu]
  · rw [if_neg hu, dsvrInputs_of_id fro tgt mode inputs ih]
    simp

/-- The view of a kFrameState node taken by the duplication and
use-collection routines: id, use count, the node id at the
operand-stack-slot input (kFrameStateStackInput), and the node at the
locals input (kFrameStateLocalsInput). -/
structure FrameStateT where
  fsid : Nat
  useCount : Nat
  stack : Nat
  locals : StateTree
deriving Repr

/-- DuplicateFrameStateAndRename, lines 300-322: a frame state with use
count above one is returned unchanged; otherwise the stack slot is
renamed to `to` when it equals the renamed-from node, and the locals are
processed by DuplicateStateValuesAndRename (the processed locals count as
a new input only when that call returned a fresh clone, line 315's
pointer comparison — an in-place mutation propagates through the original
node).  A copy is made — or, in change-in-place mode, the original
mutated — only when the stack matched or the locals are new. -/
def DuplicateFrameStateAndRename (fro tgt : Nat) (mode : StateCloneMode)
    (fs : FrameStateT) : FrameStateT × Touch :=
  if fs.useCount > 1 then (fs, Touch.untouched)
  else
    let stackHit : Bool := fs.stack == fro
    let r := DuplicateStateValuesAndRename fro tgt mode fs.locals
    let localsNew : Bool := r.2 == Touch.cloned
    if stackHit || localsNew then
      (⟨fs.fsid, fs.useCount, if stackHit then tgt else fs.stack, r.1⟩,
       if mode = StateCloneMode.changeInPlace then Touch.mutatedInPlace
       else Touch.cloned)
    else ({ fs with locals := r.1 }, Touch.untouched)

/-- C7: a metadata node whose use count exceeds one is never touched by
the snapshot renaming, so a frame state or state values shared between
two independent call sites observes no change when the tree is duplicated
for one of them (for state values this revision in fact never changes any
node at all); a frame state the renaming does touch has use count at most
one — hence, having at least one use as an input of its consumer, exactly
one — and it is mutated in place only in change-in-place mode and cloned
whenever the mode is clone-state. -/
theorem C7_snapshot_sharing :
    (∀ (fro tgt : Nat) (mode : StateCloneMode) (sv : StateTree),
        DuplicateStateValuesAndRename fro tgt mode sv = (sv, Touch.untouched)) ∧
    (∀ (fro tgt : Nat) (mode : StateCloneMode) (fs : FrameStateT),
        fs.useCount > 1 →
        DuplicateFrameStateAndRename fro tgt mode fs = (fs, Touch.untouched)) ∧
    (∀ (fro tgt : Nat) (mode : StateCloneMode) (fs : FrameStateT),
        (DuplicateFrameStateAndRename fro tgt mode fs).2 ≠ Touch.untouched →
        fs.useCount ≤ 1) ∧
    (∀ (fro tgt : Nat) (mode : StateCloneMode) (fs : FrameStateT),
        1 ≤ fs.useCount →
        (DuplicateFrameStateAndRename fro tgt mode fs).2 ≠ Touch.untouched →
        fs.useCount = 1) ∧
    (∀ (fro tgt : Nat) (mode : StateCloneMode) (fs : FrameStateT),
        (DuplicateFrameStateAndRename fro tgt mode fs).2 = Touch.mutatedInPlace →
        mode = StateCloneMode.changeInPlace ∧ fs.useCount ≤ 1) ∧
    (∀ (fro tgt : Nat) (fs : FrameStateT),
        (DuplicateFrameStateAndRename fro tgt StateCloneMode.cloneState fs).2 ≠
            Touch.untouched →
        (DuplicateFrameStateAndRename fro tgt StateCloneMode.cloneState fs).2 =
            Touch.cloned) := by
  have hfs : ∀ (fro tgt : Nat) (mode : StateCloneMode) (fs : FrameStateT),
      DuplicateFrameStateAndRename fro tgt mode fs =
        if fs.useCount > 1 then (fs, Touch.untouched)
        else if fs.stack == fro then
          (⟨fs.fsid, fs.useCount, tgt, fs.locals⟩,
           if mode = StateCloneMode.changeInPlace then Touch.mutatedInPlace
           else Touch.cloned)
        else (fs, Touch.untouched) := by
    intro fro tgt mode fs
    simp only [DuplicateFrameStateAndRename, dsvr_id]
    by_cases hu : fs.useCount > 1
    · rw [if_pos hu, if_pos hu]
    · rw [if_neg hu, if_neg hu]
      by_cases hstk : (fs.stack == fro) = true
      · simp [hstk]
      · rw [Bool.not_eq_true] at hstk
        simp [hstk]
  refine ⟨dsvr_id, ?_, ?_, ?_, ?_, ?_⟩
  · intro fro tgt mode fs hu
    rw [hfs, if_pos hu]
  · intro fro tgt mode fs hne
    by_contra hgt
    rw [hfs fro tgt mode fs, if_pos (by omega)] at hne
    exact hne rfl
  · intro fro tgt mode fs hge hne
    by_contra hne1
    rw [hfs fro tgt mode fs, if_pos (by omega)] at hne
    exact hne rfl
  · intro fro tgt mode fs hmut
    rw [hfs fro tgt mode fs] at hmut
    by_cases hu : fs.useCount > 1
    · rw [if_pos hu] at hmut
      exact absurd hmut (by simp)
    · rw [if_neg hu] at hmut
      refine ⟨?_, by omega⟩
      by_cases hstk : (fs.stack == fro) = true
      · rw [if_pos hstk] at hmut
        by_cases hm : mode = StateCloneMode.changeInPlace
        · exact hm
        · rw [if_neg hm] at hmut
          exact absurd hmut.symm (by simp)
      · rw [Bool.not_eq_true] at hstk
        rw [if_neg (by simp [hstk])] at hmut
        exact absurd hmut (by simp)
  · intro fro tgt fs hne
    rw [hfs fro tgt StateCloneMode.cloneState fs] at hne ⊢
    by_cases hu : fs.useCount > 1
    · rw [if_pos hu] at hne
      exact absurd rfl hne
    · rw [if_neg hu] at hne ⊢
      by_cases hstk : (fs.stack == fro) = true
      · rw [if_pos hstk]
        simp
      · rw [Bool.not_eq_true] at hstk
        rw [if_neg (by simp [hstk])] at hne
        exact absurd rfl hne

/-- Witness for C7 at a concrete input: a frame state with use count 2
(shared by two consumers) is returned untouched by the duplication. -/
theorem C7_snapshot_sharing_witness :
    DuplicateFrameStateAndRename 4 9 StateCloneMode.changeInPlace
        ⟨11, 2, 4, StateTree.node 12 1 true []⟩ =
      (⟨11, 2, 4, StateTree.node 12 1 true []⟩, Touch.untouched) :=
  C7_snapshot_sharing.2.1 4 9 StateCloneMode.changeInPlace
    ⟨11, 2, 4, StateTree.node 12 1 true []⟩ (by decide)

/-! ## Dedup by the seen set (C9) -/

theorem Reduce_not_inlinee (cfg : Config) (mode : Mode) (orc : Oracles) (n : CallNode)
    (s : HState) (h : n.isInlinee = false) : Reduce cfg mode orc n s = (false, s) := by
  simp only [Reduce]
  rw [if_pos h]

theorem Reduce_of_seen (cfg : Config) (mode : Mode) (orc : Oracles) (n : CallNode)
    (s : HState) (h : n.id ∈ s.seen) : Reduce cfg mode orc n s = (false, s) := by
  simp only [Reduce]
  by_cases hop : n.isInlinee = false
  · rw [if_pos hop]
  · rw [if_neg hop, if_pos h]

set_option maxHeartbeats 1000000 in
theorem Reduce_seen_mem (cfg : Config) (mode : Mode) (orc : Oracles) (n : CallNode)
    (s : HState) (h : n.isInlinee = true) :
    n.id ∈ ((Reduce cfg mode orc n s).2).seen := by
  by_cases hseen : n.id ∈ s.seen
  · rw [Reduce_of_seen cfg mode orc n s hseen]
    exact hseen
  · cases mode <;>
      · simp only [Reduce]
        rw [if_neg (by simp [h]), if_neg hseen]
        split_ifs <;> exact List.mem_cons_self _ _

theorem Finalize_seen (cfg : Config) (orc : Oracles) (s : HState) :
    (Finalize cfg orc s).seen = s.seen := rfl

set_option maxHeartbeats 1000000 in
theorem Reduce_seen_sub (cfg : Config) (mode : Mode) (orc : Oracles) (n : CallNode)
    (s : HState) : s.seen ⊆ ((Reduce cfg mode orc n s).2).seen := by
  cases mode <;>
    · simp only [Reduce]
      split_ifs <;>
        first
          | exact fun x hx => hx
          | exact fun x hx => List.mem_cons_of_mem _ hx

theorem applyOp_seen_sub (cfg : Config) (mode : Mode) (s : HState) (op : Op) :
    s.seen ⊆ (applyOp cfg mode s op).seen := by
  cases op with
  | reduceOp orc n => exact Reduce_seen_sub cfg mode orc n s
  | finalizeOp orc => exact fun x hx => hx

theorem applyOps_seen_sub (cfg : Config) (mode : Mode) :
    ∀ (ops : List Op) (s : HState), s.seen ⊆ (applyOps cfg mode s ops).seen := by
  intro ops
  induction ops with
  | nil => intro s x hx; exact hx
  | cons op ops ih =>
    intro s
    exact fun x hx => ih _ (applyOp_seen_sub cfg mode s op hx)

/-- C9: once Reduce has processed a call node, every later Reduce
invocation on the same node — after any further sequence of Reduce and
Finalize operations — reports no change and leaves the state untouched,
so the same node never yields two candidates or two substitutions. -/
theorem C9_dedup (cfg : Config) (mode : Mode) (orc1 orc2 : Oracles) (n : CallNode)
    (s : HState) (ops : List Op) :
    Reduce cfg mode orc2 n (applyOps cfg mode ((Reduce cfg mode orc1 n s).2) ops) =
      (false, applyOps cfg mode ((Reduce cfg mode orc1 n s).2) ops) := by
  by_cases hop : n.isInlinee = false
  · exact Reduce_not_inlinee _ _ _ _ _ hop
  · have h1 : n.isInlinee = true := by
      cases hni : n.isInlinee
      · exact absurd hni hop
      · rfl
    have hmem : n.id ∈ ((Reduce cfg mode orc1 n s).2).seen :=
      Reduce_seen_mem _ _ _ _ _ h1
    have hmem2 : n.id ∈ (applyOps cfg mode ((Reduce cfg mode orc1 n s).2) ops).seen :=
      applyOps_seen_sub _ _ _ _ hmem
    exact Reduce_of_seen _ _ _ _ _ hmem2

/-! ## Rebuild dispatch (C8) -/

/-- References to the nodes occurring in a rebuilt dispatch: a node that
existed before the dispatch was built, the HeapConstant of target i, and
the IfTrue / IfFalse projections of the Branch probing target i. -/
inductive NodeRef where
  | pre (nid : Nat)
  | heapConst (i : Nat)
  | ifTrueOf (i : Nat)
  | ifFalseOf (i : Nat)
deriving DecidableEq, Repr

/-- One Branch emitted by the rebuild loop: it probes target tgtIdx — its
condition is the ReferenceEqual comparison of the callee value against
that target's function constant (lines 482-485) — on the given control
input. -/
structure BranchEmit where
  tgtIdx : Nat
  control : NodeRef
deriving DecidableEq, Repr

/-- One specialized call produced by the rebuild loop: the control used
as that call's dedicated control predecessor, and the call's input
array. -/
structure SpecCall where
  control : NodeRef
  inputs : List NodeRef
deriving DecidableEq, Repr

/-- Lines 495-496: the cloned call's inputs are the original call's
inputs with index 0 replaced by the target constant and the last index by
the dispatch control. -/
def specializeInputs (origInputs : List NodeRef) (target ctrl : NodeRef) :
    List NodeRef :=
  (origInputs.set 0 target).set (origInputs.length - 1) ctrl

/-- The loop of CreateOrReuseDispatch, lines 477-499 (the rebuild
strategy): for every target except the last, emit a ReferenceEqual
comparison and a Branch on the running fallthrough control, take the
IfTrue projection as that target's control predecessor and continue
probing on the IfFalse projection; the last target takes the running
fallthrough control unconditionally, with no comparison emitted.  Returns
the specialized calls and the emitted branches. -/
def rebuildLoop (origInputs : List NodeRef) (numCalls : Nat) (i : Nat)
    (fallthrough : NodeRef) : List SpecCall × List BranchEmit :=
  if hi : i < numCalls then
    if i ≠ numCalls - 1 then
      (⟨NodeRef.ifTrueOf i,
          specializeInputs origInputs (NodeRef.heapConst i) (NodeRef.ifTrueOf i)⟩ ::
            (rebuildLoop origInputs numCalls (i + 1) (NodeRef.ifFalseOf i)).1,
       ⟨i, fallthrough⟩ ::
            (rebuildLoop origInputs numCalls (i + 1) (NodeRef.ifFalseOf i)).2)
    else
      ([⟨fallthrough, specializeInputs origInputs (NodeRef.heapConst i) fallthrough⟩],
       [])
  else ([], [])
termination_by numCalls - i
decreasing_by all_goals omega

/-- The rebuild strategy of CreateOrReuseDispatch (lines 473-499),
starting from the call's own control input as the initial fallthrough. -/
def CreateDispatchRebuild (origInputs : List NodeRef) (origControl : NodeRef)
    (numCalls : Nat) : List SpecCall × List BranchEmit :=
  rebuildLoop origInputs numCalls 0 origControl

/-- Control predecessor handed to call i + k by the rebuild loop entered
at index i with fallthrough ft. -/
def rebuildCtrl (numCalls i : Nat) (ft : NodeRef) (k : Nat) : NodeRef :=
  if i + k < numCalls - 1 then NodeRef.ifTrueOf (i + k)
  else if k = 0 then ft else NodeRef.ifFalseOf (i + k - 1)

theorem rebuildCtrl_shift (numCalls i k : Nat) (ft : NodeRef) :
    rebuildCtrl numCalls (i + 1) (NodeRef.ifFalseOf i) k =
      rebuildCtrl numCalls i ft (k + 1) := by
  unfold rebuildCtrl
  have e : i + 1 + k = i + (k + 1) := by omega
  rw [e]
  by_cases h1 : i + (k + 1) < numCalls - 1
  · rw [if_pos h1, if_pos h1]
  · rw [if_neg h1, if_neg h1]
    by_cases hk : k = 0
    · subst hk
      rw [if_pos rfl, if_neg (by omega)]
      simp only [show i + (0 + 1) - 1 = i from by omega]
    · rw [if_neg hk, if_neg (by omega)]

theorem specializeInputs_length (l : List NodeRef) (t c : NodeRef) :
    (specializeInputs l t c).length = l.length := by
  simp [specializeInputs]

theorem specializeInputs_getD (l : List NodeRef) (t c d : NodeRef)
    (hl : 2 ≤ l.length) :
    (specializeInputs l t c).getD 0 d = t ∧
    (specializeInputs l t c).getD (l.length - 1) d = c ∧
    ∀ j, j ≠ 0 → j ≠ l.length - 1 → (specializeInputs l t c).getD j d = l.getD j d := by
  have hlen : (specializeInputs l t c).length = l.length := specializeInputs_length l t c
  refine ⟨?_, ?_, ?_⟩
  · rw [List.getD_eq_getElem _ d (by omega : 0 < (specializeInputs l t c).length)]
    simp only [specializeInputs]
    rw [List.getElem_set_ne (by omega : l.length - 1 ≠ 0)]
    rw [List.getElem_set_self]
  · rw [List.getD_eq_getElem _ d
      (by omega : l.length - 1 < (specializeInputs l t c).length)]
    simp only [specializeInputs]
    rw [List.getElem_set_self]
  · intro j hj0 hjl
    by_cases hj : j < l.length
    · rw [List.getD_eq_getElem _ d (by omega : j < (specializeInputs l t c).length)]
      rw [List.getD_eq_getElem _ d hj]
      simp only [specializeInputs]
      rw [List.getElem_set_ne (by omega : l.length - 1 ≠ j)]
      rw [List.getElem_set_ne (by omega : 0 ≠ j)]
    · rw [List.getD_eq_default _ d (by omega), List.getD_eq_default _ d (by omega)]

theorem getD_default_irrel {α : Type} (l : List α) (k : Nat) (d1 d2 : α)
    (h : k < l.length) : l.getD k d1 = l.getD k d2 := by
  rw [List.getD_eq_getElem _ d1 h, List.getD_eq_getElem _ d2 h]

theorem rebuildLoop_spec (origInputs : List NodeRef) (numCalls : Nat) :
    ∀ (d i : Nat) (ft : NodeRef), numCalls - i = d → i < numCalls →
      (rebuildLoop origInputs numCalls i ft).1.length = numCalls - i ∧
      (rebuildLoop origInputs numCalls i ft).2.length = numCalls - 1 - i ∧
      (∀ k, k < numCalls - 1 - i →
        (rebuildLoop origInputs numCalls i ft).2.getD k ⟨0, ft⟩ =
          ⟨i + k, if k = 0 then ft else NodeRef.ifFalseOf (i + k - 1)⟩) ∧
      (∀ k, k < numCalls - i →
        (rebuildLoop origInputs numCalls i ft).1.getD k ⟨ft, []⟩ =
          ⟨rebuildCtrl numCalls i ft k,
           specializeInputs origInputs (NodeRef.heapConst (i + k))
             (rebuildCtrl numCalls i ft k)⟩) := by
  intro d
  induction d with
  | zero => intro i ft hd hi; omega
  | succ d ihd =>
    intro i ft hd hi
    by_cases hlast : i = numCalls - 1
    · rw [rebuildLoop, dif_pos hi, if_neg (not_not_intro hlast)]
      refine ⟨by simp only [List.length_cons, List.length_nil]; omega,
        by simp only [List.length_nil]; omega, ?_, ?_⟩
      · intro k hk
        omega
      · intro k hk
        have hk0 : k = 0 := by omega
        subst hk0
        simp only [List.getD_cons_zero]
        have hc : rebuildCtrl numCalls i ft 0 = ft := by
          unfold rebuildCtrl
          rw [if_neg (by omega), if_pos rfl]
        rw [hc, Nat.add_zero]
    · have hi1 : i + 1 < numCalls := by omega
      obtain ⟨ih1, ih2, ih3, ih4⟩ :=
        ihd (i + 1) (NodeRef.ifFalseOf i) (by omega) hi1
      rw [rebuildLoop, dif_pos hi, if_pos hlast]
      refine ⟨by simp only [List.length_cons, ih1]; omega,
        by simp only [List.length_cons, ih2]; omega, ?_, ?_⟩
      · intro k hk
        cases k with
        | zero => simp
        | succ k =>
          simp only [List.getD_cons_succ]
          rw [getD_default_irrel _ k (⟨0, ft⟩ : BranchEmit)
            (⟨0, NodeRef.ifFalseOf i⟩ : BranchEmit) (by rw [ih2]; omega)]
          rw [ih3 k (by omega)]
          by_cases hk0 : k = 0
          · subst hk0
            rw [if_pos rfl, if_neg (Nat.succ_ne_zero 0)]
            simp only [show i + 1 + 0 = i + (0 + 1) from by omega,
              show i + (0 + 1) - 1 = i from by omega]
          · rw [if_neg hk0, if_neg (Nat.succ_ne_zero k)]
            simp only [show i + 1 + k = i + (k + 1) from by omega]
      · intro k hk
        cases k with
        | zero =>
          simp only [List.getD_cons_zero]
          have hc : rebuildCtrl numCalls i ft 0 = NodeRef.ifTrueOf i := by
            unfold rebuildCtrl
            rw [if_pos (by omega), Nat.add_zero]
          rw [hc, Nat.add_zero]
        | succ k =>
          simp only [List.getD_cons_succ]
          rw [getD_default_irrel _ k (⟨ft, []⟩ : SpecCall)
            (⟨NodeRef.ifFalseOf i, []⟩ : SpecCall) (by rw [ih1]; omega)]
          rw [ih4 k (by omega), rebuildCtrl_shift numCalls i k ft]
          have e1 : i + 1 + k = i + (k + 1) := by omega
          rw [e1]

/-- C8: the rebuild dispatch for N targets emits a reference-identity
comparison and a two-way branch for each of targets 0 through N-2 — the
branch for target 0 probing on the original control, the branch for
target k probing on the false edge of branch k-1 — and no comparison for
target N-1; call k (k < N-1) takes the true edge of branch k as its
control predecessor, while call N-1 takes the final false edge; and every
specialized call is the original input array with exactly the target
operand (index 0) replaced by that target's constant, the control (last
index) replaced by that call's control predecessor, and all other inputs
unchanged. -/
theorem C8_rebuild_dispatch (origInputs : List NodeRef) (origControl : NodeRef)
    (numCalls : Nat) (h2 : 2 ≤ numCalls) (hlen : 2 ≤ origInputs.length) :
    (CreateDispatchRebuild origInputs origControl numCalls).1.length = numCalls ∧
    (CreateDispatchRebuild origInputs origControl numCalls).2.length = numCalls - 1 ∧
    (∀ k, k < numCalls - 1 →
      (CreateDispatchRebuild origInputs origControl numCalls).2.getD k
          ⟨0, origControl⟩ =
        ⟨k, if k = 0 then origControl else NodeRef.ifFalseOf (k - 1)⟩) ∧
    (∀ k, k < numCalls - 1 →
      ((CreateDispatchRebuild origInputs origControl numCalls).1.getD k
          ⟨origControl, []⟩).control = NodeRef.ifTrueOf k) ∧
    ((CreateDispatchRebuild origInputs origControl numCalls).1.getD (numCalls - 1)
        ⟨origControl, []⟩).control = NodeRef.ifFalseOf (numCalls - 2) ∧
    (∀ k, k < numCalls →
      ((CreateDispatchRebuild origInputs origControl numCalls).1.getD k
          ⟨origControl, []⟩).inputs =
        specializeInputs origInputs (NodeRef.heapConst k)
          (((CreateDispatchRebuild origInputs origControl numCalls).1.getD k
              ⟨origControl, []⟩).control)) ∧
    (∀ (t c d : NodeRef),
      (specializeInputs origInputs t c).length = origInputs.length ∧
      (specializeInputs origInputs t c).getD 0 d = t ∧
      (specializeInputs origInputs t c).getD (origInputs.length - 1) d = c ∧
      ∀ j, j ≠ 0 → j ≠ origInputs.length - 1 →
        (specializeInputs origInputs t c).getD j d = origInputs.getD j d) := by
  obtain ⟨h1, hb, h3, h4⟩ :=
    rebuildLoop_spec origInputs numCalls numCalls 0 origControl (by omega) (by omega)
  have hzs : ∀ k, (0 : Nat) + k = k := fun k => Nat.zero_add k
  refine ⟨by simpa using h1, by simpa using hb, ?_, ?_, ?_, ?_, ?_⟩
  · intro k hk
    have := h3 k (by omega)
    rw [CreateDispatchRebuild]
    rw [this]
    rw [hzs k]
  · intro k hk
    have := h4 k (by omega)
    rw [CreateDispatchRebuild, this]
    have hc : rebuildCtrl numCalls 0 origControl k = NodeRef.ifTrueOf k := by
      unfold rebuildCtrl
      rw [hzs k, if_pos (by omega)]
    rw [hc]
  · have := h4 (numCalls - 1) (by omega)
    rw [CreateDispatchRebuild, this]
    have hc : rebuildCtrl numCalls 0 origControl (numCalls - 1) =
        NodeRef.ifFalseOf (numCalls - 2) := by
      unfold rebuildCtrl
      rw [hzs (numCalls - 1), if_neg (by omega), if_neg (by omega)]
      simp only [show numCalls - 1 - 1 = numCalls - 2 from by omega]
    rw [hc]
  · intro k hk
    have := h4 k (by omega)
    rw [CreateDispatchRebuild, this, hzs k]
  · intro t c d
    obtain ⟨ha, hbb, hcc⟩ := specializeInputs_getD origInputs t c d hlen
    exact ⟨specializeInputs_length origInputs t c, ha, hbb, hcc⟩

/-- Witness for C8 at concrete inputs: three targets, a five-input call. -/
theorem C8_rebuild_dispatch_witness :
    (CreateDispatchRebuild
        [NodeRef.pre 0, NodeRef.pre 1, NodeRef.pre 2, NodeRef.pre 3, NodeRef.pre 4]
        (NodeRef.pre 4) 3).1.length = 3 ∧
    (CreateDispatchRebuild
        [NodeRef.pre 0, NodeRef.pre 1, NodeRef.pre 2, NodeRef.pre 3, NodeRef.pre 4]
        (NodeRef.pre 4) 3).2.length = 2 :=
  ⟨(C8_rebuild_dispatch
      [NodeRef.pre 0, NodeRef.pre 1, NodeRef.pre 2, NodeRef.pre 3, NodeRef.pre 4]
      (NodeRef.pre 4) 3 (by decide) (by decide)).1,
   (C8_rebuild_dispatch
      [NodeRef.pre 0, NodeRef.pre 1, NodeRef.pre 2, NodeRef.pre 3, NodeRef.pre 4]
      (NodeRef.pre 4) 3 (by decide) (by decide)).2.1⟩

/-! ## Reuse dispatch preconditions (C10) -/

/-- kMaxUses, line 380: the cap of the bounded use search. -/
def kMaxUses : Nat := 8

/-- Index of the operand-stack-slot input of a kFrameState node
(compiler/frame-states.h). -/
def kFrameStateStackInput : Nat := 2

mutual

/-- CollectStateValuesOwnedUses, lines 228-247: walk a state-values tree,
skipping nodes shared with other users (use count above one), pushing
(owner node id, input index) for every input equal to the callee, and
failing (none) when the buffer would exceed maxUses. -/
def CollectStateValuesOwnedUses (calleeId maxUses : Nat) :
    StateTree → List (Nat × Nat) → Option (List (Nat × Nat))
  | .node i u _ inputs, buf =>
      if u > 1 then some buf
      else csvLoop calleeId maxUses i 0 inputs buf

/-- The input loop of CollectStateValuesOwnedUses (lines 233-245),
carrying the owner node id and the running input index. -/
def csvLoop (calleeId maxUses svId : Nat) :
    Nat → List StateTree → List (Nat × Nat) → Option (List (Nat × Nat))
  | _, [], buf => some buf
  | i, input :: rest, buf =>
      if input.isSV then
        match CollectStateValuesOwnedUses calleeId maxUses input buf with
        | none => none
        | some buf1 => csvLoop calleeId maxUses svId (i + 1) rest buf1
      else if input.nid = calleeId then
        (if buf.length ≥ maxUses then none
         else csvLoop calleeId maxUses svId (i + 1) rest (buf ++ [(svId, i)]))
      else csvLoop calleeId maxUses svId (i + 1) rest buf

end

/-- CollectFrameStateUniqueUses, lines 280-296: skip frame states shared
with other users; record the stack-slot input when it is the callee
(subject to the maxUses bound) and then collect the owned uses inside the
locals. -/
def CollectFrameStateUniqueUses (calleeId maxUses : Nat) (fs : FrameStateT)
    (buf : List (Nat × Nat)) : Option (List (Nat × Nat)) :=
  if fs.useCount > 1 then some buf
  else
    match (if fs.stack = calleeId then
        (if buf.length ≥ maxUses then none
         else some (buf ++ [(fs.fsid, kFrameStateStackInput)]))
      else some buf) with
    | none => none
    | some buf1 => CollectStateValuesOwnedUses calleeId maxUses fs.locals buf1

/-- The checkpoint between the call and the callee phi, when the call's
effect input is a kCheckpoint: its node id, its control input, and the
frame state at its input 0. -/
structure CkptView where
  ckptId : Nat
  control : Nat
  state : FrameStateT
deriving Repr

/-- One use edge of the callee phi: the consuming node id and the input
index (Edge::from and Edge::index). -/
structure UseEdge where
  src : Nat
  idx : Nat
deriving DecidableEq, Repr

/-- The part of the graph inspected by TryReuseDispatch: the call node id
and input count, the call's control input, the callee phi id, the phi's
control input (the dispatch merge candidate), the checkpoint the call's
effect input goes through when there is one, the effect node reached
below it (whether its opcode is kEffectPhi, its id, its control input),
the call's lazy-deopt frame state, the use edges of the callee phi, and
the number of collected targets. -/
structure ReuseView where
  nodeId : Nat
  nodeInputCount : Nat
  nodeControl : Nat
  calleeId : Nat
  phiControl : Nat
  ckpt : Option CkptView
  belowIsEffectPhi : Bool
  belowId : Nat
  belowControl : Nat
  lazyState : FrameStateT
  calleeUseEdges : List UseEdge
  numCalls : Nat
deriving Repr

/-- Graph mutations performed by the commit phase of TryReuseDispatch:
per branch the state duplications (clones or in-place edits performed by
DuplicateFrameStateAndRename), the re-synthesized checkpoint, and the
specialized call (lines 420-449); then the dead-input replacements on the
call, the phi, the effect phi and the checkpoint, and the kill of the
merge (lines 451-459). -/
inductive Mutation where
  | dupStates (branch : Nat)
  | newCheckpoint (branch : Nat)
  | newCall (branch : Nat)
  | replaceInput (nid : Nat) (idx : Nat)
  | killNode (nid : Nat)
deriving DecidableEq, Repr

/-- The mutation list of the commit phase, lines 420-459, in program
order. -/
def tryReuseMutations (v : ReuseView) : List Mutation :=
  ((List.range v.numCalls).flatMap (fun i =>
      Mutation.dupStates i ::
        ((match v.ckpt with
          | some _ => [Mutation.newCheckpoint i]
          | none => []) ++ [Mutation.newCall i]))) ++
  ([Mutation.replaceInput v.nodeId (v.nodeInputCount - 1),
    Mutation.replaceInput v.calleeId v.numCalls,
    Mutation.replaceInput v.belowId v.numCalls] ++
   (match v.ckpt with
    | some ck => [Mutation.replaceInput ck.ckptId 2]
    | none => []) ++
   [Mutation.killNode v.phiControl])

/-- The use check of lines 379-416: collect the owned uses of the callee
inside the checkpoint state (case 2) and inside the lazy-deopt frame
state (case 3), failing on overflow of the kMaxUses bound, then require
every use edge of the callee to be the call's target operand (case 1) or
one of the collected occurrences. -/
def tryReuseUsesOk (v : ReuseView) : Bool :=
  match (match v.ckpt with
    | some ck => CollectFrameStateUniqueUses v.calleeId kMaxUses ck.state []
    | none => some []) with
  | none => false
  | some buf0 =>
      match CollectFrameStateUniqueUses v.calleeId kMaxUses v.lazyState buf0 with
      | none => false
      | some buf =>
          v.calleeUseEdges.all (fun e =>
            (e.src = v.nodeId && e.idx = 0) ||
            buf.any (fun u => u.1 = e.src && u.2 = e.idx))

/-- TryReuseDispatch, lines 324-461: the precondition checks of lines
340-416 in source order, each declining before any mutation, then the
commit phase performing its mutations and returning true. -/
def TryReuseDispatch (v : ReuseView) : Bool × List Mutation :=
  if v.nodeControl ≠ v.phiControl then (false, [])
  else if (match v.ckpt with
      | some ck => decide (ck.control ≠ v.phiControl)
      | none => false) then (false, [])
  else if !v.belowIsEffectPhi then (false, [])
  else if v.belowControl ≠ v.phiControl then (false, [])
  else if !tryReuseUsesOk v then (false, [])
  else (true, tryReuseMutations v)

/-- C10: whenever TryReuseDispatch declines — because the call's control
input is not the phi's merge, the checkpoint or the effect phi below it
is not governed by that merge, the bounded use search (capped at
kMaxUses = 8 collected uses) overflows, or an unaccounted use of the
callee exists — it returns false with no graph mutation performed, so the
rebuild fallback starts from the graph exactly as at entry; and only when
every precondition holds does it return true, performing its mutations,
ending with the kill of the merge. -/
theorem C10_reuse_decline :
    (∀ v : ReuseView, (TryReuseDispatch v).1 = false → (TryReuseDispatch v).2 = []) ∧
    (∀ v : ReuseView, tryReuseUsesOk v = false → TryReuseDispatch v = (false, [])) ∧
    (∀ v : ReuseView, (TryReuseDispatch v).1 = true →
        (TryReuseDispatch v).2 = tryReuseMutations v ∧
        Mutation.killNode v.phiControl ∈ (TryReuseDispatch v).2) ∧
    (∀ (v : ReuseView) (ck : CkptView), v.ckpt = some ck →
        CollectFrameStateUniqueUses v.calleeId kMaxUses ck.state [] = none →
        TryReuseDispatch v = (false, [])) := by
  have huses : ∀ v : ReuseView, tryReuseUsesOk v = false →
      TryReuseDispatch v = (false, []) := by
    intro v h
    unfold TryReuseDispatch
    split_ifs <;> simp_all
  refine ⟨?_, huses, ?_, ?_⟩
  · intro v h
    unfold TryReuseDispatch at h ⊢
    split_ifs at h ⊢ <;> simp_all
  · intro v h
    unfold TryReuseDispatch at h ⊢
    split_ifs at h ⊢ <;> simp_all [tryReuseMutations]
  · intro v ck hck hc
    apply huses
    simp [tryReuseUsesOk, hck, hc]

/-- Witness for C10 at a concrete input: a view whose call control (node
2) differs from the phi's merge (node 9) is declined with an empty
mutation list. -/
theorem C10_reuse_decline_witness :
    (TryReuseDispatch
        ⟨1, 5, 2, 3, 9, none, true, 4, 9, ⟨11, 1, 3, StateTree.node 12 1 true []⟩,
         [], 2⟩).2 = [] :=
  C10_reuse_decline.1
    ⟨1, 5, 2, 3, 9, none, true, 4, 9, ⟨11, 1, 3, StateTree.node 12 1 true []⟩, [], 2⟩
    (by decide)

end JSIH
